import Mathlib

/-!
# Verification of the run handler of `CodeEditor.jsx`

Shallow embedding of `handleRunCode`
(`src/FrontEnd/online_judge/src/components/CodeEditor.jsx`, lines 118-178).

The React component state the handler reads and writes is an explicit record,
the two service calls it awaits (`runCode`, `saveUserCode`) are oracles, and
every service call the handler issues is logged in an effect trace. A run of the handler
either completes or is cut short by an exception thrown out of the loop's `catch` clause.

Modelling decisions:
* the handler is a closure over one render, so `code`, `language`, `testCases`, `userId`
  and `id` are fixed during a run; the state it returns is the captured state with the
  three setters (`setTestResults`, `setOutput`, `setStatus`) applied, or the captured
  state itself when the run is cut short before the setters;
* the loop awaits each `runCode` call before the next iteration, so the `i`-th call is the
  call for `testCases[i]`; the oracle receives `i` and may answer differently on each call;
  every awaited promise is taken to settle;
* JavaScript strings are modelled by `String`; `trim` is defined on the character list with
  the white-space set of ECMAScript, all of which lies in the Basic Multilingual Plane.
-/

namespace CodeEditor

/-! ## Data model -/

/-- An element of the problem's `test_cases` array; the handler reads `input` and `output`. -/
structure TestCase where
  input : String
  output : String
deriving DecidableEq

/-- The object literal pushed onto `results` (lines 131-136 and 138-144): exactly four keys. -/
structure CaseResult where
  input : String
  expected : String
  output : String
  passed : Bool
deriving DecidableEq

/-- The JavaScript values a property read on a result object can yield: `undefined`, a
string, a boolean, or the member of `Object.prototype` stored under an inherited key. -/
inductive JsValue where
  | undefined
  | str (s : String)
  | bool (b : Bool)
  | inherited (key : String)
deriving DecidableEq

/-- The keys every object literal inherits from `Object.prototype`. -/
def objectPrototypeKeys : List String :=
  ["constructor", "__defineGetter__", "__defineSetter__", "hasOwnProperty",
   "__lookupGetter__", "__lookupSetter__", "isPrototypeOf", "propertyIsEnumerable",
   "toString", "valueOf", "__proto__", "toLocaleString"]

/-- Property read `res[key]` on a result object: the four keys of the literal are its own,
the keys of `Object.prototype` are inherited, every other key reads as `undefined`. -/
def CaseResult.getProp (r : CaseResult) (key : String) : JsValue :=
  if key = "input" then JsValue.str r.input
  else if key = "expected" then JsValue.str r.expected
  else if key = "output" then JsValue.str r.output
  else if key = "passed" then JsValue.bool r.passed
  else if key ∈ objectPrototypeKeys then JsValue.inherited key
  else JsValue.undefined

/-- Settlement of the promise returned by `runCode(language, code, input)` (line 125), as
far as the handler can tell the cases apart:
* `resolved output`: it resolves with an object whose `output` is a string;
* `rejected message`: it rejects with a value on which `error.message` can be read, the
  message being a string or missing (an `Error`, a response object, a bare string);
  an exception raised inside the `try` block after the call has resolved reaches the
  same `catch` clause with such a value;
* `rejectedNullish`: it rejects with `null` or `undefined`, on which the read of
  `error.message` in line 142 itself throws a `TypeError` (any other rejection value for
  which the evaluation of line 142 throws behaves the same). -/
inductive RunOutcome where
  | resolved (output : String)
  | rejected (message : Option String)
  | rejectedNullish
deriving DecidableEq

/-- The execution service. The first argument is the number of calls already made during
the run, so a service that answers differently on each call is covered. -/
abbrev RunCode := Nat → String → String → String → RunOutcome

/-- Settlement of the promise returned by `saveUserCode(...)` (line 170). The `catch`
clause of lines 171-173 hands the rejection value to `console.error` without reading it,
so every rejection, `null` and `undefined` included, is the one case `rejected`. -/
inductive SaveOutcome where
  | resolved
  | rejected
deriving DecidableEq

/-- The persistence service, called with `(id, userId, code, language, status)`. -/
abbrev SaveUserCode := String → String → String → String → String → SaveOutcome

/-- Calls the handler makes on the outside world, in the order it makes them. -/
inductive Effect where
  | runCode (language code input : String)
  | saveUserCode (id userId code language status : String)
  | consoleError (text : String)
deriving DecidableEq

/-- The `useState` cells and the route parameter captured by the handler's closure
(lines 43-53). `problem`, `showSubmissions` and `submissions` are never touched by the
handler and are left out. -/
structure State where
  code : String
  output : String
  language : String
  testCases : List TestCase
  id : Option String
  testResults : List CaseResult
  userId : Option String
  status : String
deriving DecidableEq

/-! ## String helpers -/

/-- White space and line terminators stripped by `String.prototype.trim`. -/
def isJsWhiteSpace (c : Char) : Bool :=
  let n := c.toNat
  n == 0x09 || n == 0x0A || n == 0x0B || n == 0x0C || n == 0x0D || n == 0x20 ||
  n == 0xA0 || n == 0x1680 || (0x2000 ≤ n && n ≤ 0x200A) || n == 0x2028 ||
  n == 0x2029 || n == 0x202F || n == 0x205F || n == 0x3000 || n == 0xFEFF

/-- Characters left after dropping the leading and the trailing white space. -/
def trimChars (cs : List Char) : List Char :=
  ((cs.dropWhile isJsWhiteSpace).reverse.dropWhile isJsWhiteSpace).reverse

/-- The method `s.trim()`. -/
def jsTrim (s : String) : String := ⟨trimChars s.data⟩

/-- The expression `error.message || "Unknown error"` (line 142): a missing or empty
message is falsy. -/
def messageOrUnknown : Option String → String
  | some m => if m = "" then "Unknown error" else m
  | none => "Unknown error"

/-- Truthiness of a value that is `null`/`undefined` or a string. -/
def truthy : Option String → Bool
  | some v => v != ""
  | none => false

/-- The template literal of lines 153-155 for the result at index `idx`. -/
def formatResult (idx : Nat) (res : CaseResult) : String :=
  "Test Case " ++ toString (idx + 1) ++ ":\n" ++ (if res.passed then "Passed" else "Failed") ++
    "\nExpected: " ++ res.expected ++ "\nOutput: " ++ res.output

/-- Application of `formatResult` to each result with its index, starting at `idx`. -/
def formatFrom : Nat → List CaseResult → List String
  | _, [] => []
  | idx, res :: rest => formatResult idx res :: formatFrom (idx + 1) rest

/-- The text handed to `setOutput` (lines 149-158): `results.map(...).join("\n\n")`. -/
def formatResults (results : List CaseResult) : String :=
  "\n\n".intercalate (formatFrom 0 results)

/-! ## The loop over the test cases (lines 120-147) -/

/-- Local variables of the loop, together with the calls made so far. -/
structure LoopState where
  results : List CaseResult
  allPassed : Bool
  trace : List Effect
deriving DecidableEq

/-- How a piece of the loop ends: with new local variables, or with an exception that
leaves the handler, after the calls in `trace` have been made. -/
inductive LoopResult where
  | finished (st : LoopState)
  | threw (trace : List Effect)
deriving DecidableEq

/-- One iteration of the `for` loop (lines 123-146) for index `i`. In the `catch` clause
the object literal is evaluated before `push`, so when the read of `error.message` throws
nothing is pushed and the exception leaves the handler. -/
def loopBody (runCode : RunCode) (language code : String) (i : Nat) (selectedTestCase : TestCase)
    (st : LoopState) : LoopResult :=
  let trace := st.trace ++ [Effect.runCode language code selectedTestCase.input]
  match runCode i language code selectedTestCase.input with
  | RunOutcome.resolved output =>
    let isPassed : Bool := decide (jsTrim output = jsTrim selectedTestCase.output)
    LoopResult.finished
      { results := st.results ++
          [{ input := selectedTestCase.input, expected := selectedTestCase.output,
             output := output, passed := isPassed }],
        allPassed := if !isPassed then false else st.allPassed,
        trace := trace }
  | RunOutcome.rejected message =>
    LoopResult.finished
      { results := st.results ++
          [{ input := selectedTestCase.input, expected := selectedTestCase.output,
             output := "Error executing code: " ++ messageOrUnknown message, passed := false }],
        allPassed := false,
        trace := trace }
  | RunOutcome.rejectedNullish => LoopResult.threw trace

/-- The `for` loop of line 122, from index `i` over the test cases still to run; an
exception ends it at once. -/
def forLoop (runCode : RunCode) (language code : String) :
    Nat → List TestCase → LoopState → LoopResult
  | _, [], st => LoopResult.finished st
  | i, tc :: rest, st =>
    match loopBody runCode language code i tc st with
    | LoopResult.finished st' => forLoop runCode language code (i + 1) rest st'
    | LoopResult.threw trace => LoopResult.threw trace

/-- The local variables of the loop when it is entered (lines 120-121). -/
def loopInit : LoopState := { results := [], allPassed := true, trace := [] }

/-- The status chosen in lines 160-165. -/
def newStatus (allPassed : Bool) (results : List CaseResult) : String :=
  if allPassed then "solved"
  else if results.any (fun result => result.passed) then "attempted"
  else "unsolved"

/-- The guarded save of lines 168-174: the calls it makes. -/
def saveStep (saveUserCode : SaveUserCode) (s : State) (status : String) : List Effect :=
  match s.userId, s.id with
  | some userId, some id =>
    if truthy (some userId) && truthy (some id) && truthy (some s.language) then
      match saveUserCode id userId s.code s.language status with
      | SaveOutcome.resolved => [Effect.saveUserCode id userId s.code s.language status]
      | SaveOutcome.rejected =>
        [Effect.saveUserCode id userId s.code s.language status,
         Effect.consoleError "Failed to save user code:"]
    else []
  | _, _ => []

/-- Outcome of one click on "Run Code": the component state after the setters the handler
called have been applied, the calls the handler made, and whether the handler ran to its
end (`completed = false` when an exception left it). -/
structure Run where
  state : State
  trace : List Effect
  completed : Bool
deriving DecidableEq

/-- The handler `handleRunCode` (lines 118-178). An exception out of the loop leaves the
handler before line 148, so no setter is called and no save is issued. -/
def handleRunCode (runCode : RunCode) (saveUserCode : SaveUserCode) (s : State) : Run :=
  if s.testCases.length > 0 then
    match forLoop runCode s.language s.code 0 s.testCases loopInit with
    | LoopResult.finished l =>
      let status := newStatus l.allPassed l.results
      { state := { s with
          testResults := l.results,
          output := formatResults l.results,
          status := status },
        trace := l.trace ++ saveStep saveUserCode s status,
        completed := true }
    | LoopResult.threw trace => { state := s, trace := trace, completed := false }
  else
    { state := { s with output := "No test cases available" }, trace := [], completed := true }

/-! ## Specification-side definitions -/

/-- The result object the loop body pushes for test case `tc` when it is the `i`-th call;
none when the call rejects with `null` or `undefined`. -/
def pushed (runCode : RunCode) (language code : String) (i : Nat) (tc : TestCase) :
    Option CaseResult :=
  match runCode i language code tc.input with
  | RunOutcome.resolved output =>
    some { input := tc.input, expected := tc.output, output := output,
           passed := decide (jsTrim output = jsTrim tc.output) }
  | RunOutcome.rejected message =>
    some { input := tc.input, expected := tc.output,
           output := "Error executing code: " ++ messageOrUnknown message, passed := false }
  | RunOutcome.rejectedNullish => none

/-- The result objects for a list of test cases whose first element is call number `i`;
none when one of the calls rejects with `null` or `undefined`. -/
def pushedFrom (runCode : RunCode) (language code : String) :
    Nat → List TestCase → Option (List CaseResult)
  | _, [] => some []
  | i, tc :: rest =>
    match pushed runCode language code i tc, pushedFrom runCode language code (i + 1) rest with
    | some r, some rs => some (r :: rs)
    | _, _ => none

/-- The `runCode` calls one pass over the test cases issues. -/
def runCalls (language code : String) (testCases : List TestCase) : List Effect :=
  testCases.map (fun tc => Effect.runCode language code tc.input)

/-- Recogniser of `saveUserCode` calls in a trace. -/
def Effect.isSave : Effect → Bool
  | Effect.saveUserCode _ _ _ _ _ => true
  | _ => false

/-- Recogniser of `runCode` calls in a trace. -/
def Effect.isRun : Effect → Bool
  | Effect.runCode _ _ _ => true
  | _ => false

/-- The three verdicts of the specification. -/
inductive Verdict where
  | Unsolved
  | Attempted
  | Solved
deriving DecidableEq

/-- The status string stored for a verdict. -/
def Verdict.toStatus : Verdict → String
  | Verdict.Unsolved => "unsolved"
  | Verdict.Attempted => "attempted"
  | Verdict.Solved => "solved"

/-- The Verdict Aggregator as the specification words it (section 4.2): empty gives
Unsolved, all passed gives Solved, else some passed gives Attempted, else Unsolved. -/
def aggregate (results : List CaseResult) : Verdict :=
  if results = [] then Verdict.Unsolved
  else if results.all (fun r => r.passed) then Verdict.Solved
  else if results.any (fun r => r.passed) then Verdict.Attempted
  else Verdict.Unsolved

/-- The results list in the component state after the handler has run. -/
def resultsOf (runCode : RunCode) (saveUserCode : SaveUserCode) (s : State) : List CaseResult :=
  (handleRunCode runCode saveUserCode s).state.testResults

/-- The status in the component state after the handler has run. -/
def statusOf (runCode : RunCode) (saveUserCode : SaveUserCode) (s : State) : String :=
  (handleRunCode runCode saveUserCode s).state.status

/-- The calls the handler made, in order. -/
def callsOf (runCode : RunCode) (saveUserCode : SaveUserCode) (s : State) : List Effect :=
  (handleRunCode runCode saveUserCode s).trace

/-- Whether the handler ran to its end: false when an exception left it. -/
def completes (runCode : RunCode) (saveUserCode : SaveUserCode) (s : State) : Bool :=
  (handleRunCode runCode saveUserCode s).completed

/-! ## Concrete runs used as witnesses -/

/-- An execution service that prints `5` and a newline, except that its second call times out. -/
def timeoutOnSecond : RunCode := fun i _ _ _ =>
  if i = 1 then RunOutcome.rejected (some "timeout") else RunOutcome.resolved "5\n"

/-- An execution service that prints `5` and a newline, except that its second call rejects
with `undefined`. -/
def undefinedOnSecond : RunCode := fun i _ _ _ =>
  if i = 1 then RunOutcome.rejectedNullish else RunOutcome.resolved "5\n"

/-- An execution service that always prints `5` and a newline. -/
def alwaysFive : RunCode := fun _ _ _ _ => RunOutcome.resolved "5\n"

/-- A persistence service that always succeeds. -/
def saveOk : SaveUserCode := fun _ _ _ _ _ => SaveOutcome.resolved

/-- A persistence service that always fails. -/
def saveFails : SaveUserCode := fun _ _ _ _ _ => SaveOutcome.rejected

/-- A signed-in user on a problem with three test cases that all expect `5`. -/
def threeCases : State :=
  { code := "src", output := "", language := "cpp",
    testCases := [⟨"1", "5"⟩, ⟨"2", "5"⟩, ⟨"3", "5"⟩],
    id := some "p1", testResults := [], userId := some "u1", status := "unsolved" }

/-- The same problem before the user profile has been fetched. -/
def threeCasesNoUser : State := { threeCases with userId := none }

/-- A signed-in user on a problem without test cases, after a solved status was restored
from the store and with a result left over from an earlier run. -/
def noCasesStale : State :=
  { code := "src", output := "old", language := "cpp", testCases := [],
    id := some "p1",
    testResults := [{ input := "1", expected := "5", output := "5", passed := true }],
    userId := some "u1", status := "solved" }

/-! ## Helper lemmas -/

/-- One iteration pushes the result of `pushed`, or throws when there is none. -/
theorem loopBody_eq (runCode : RunCode) (language code : String) (i : Nat) (tc : TestCase)
    (st : LoopState) :
    loopBody runCode language code i tc st =
      match pushed runCode language code i tc with
      | some r => LoopResult.finished
          { results := st.results ++ [r], allPassed := st.allPassed && r.passed,
            trace := st.trace ++ [Effect.runCode language code tc.input] }
      | none => LoopResult.threw (st.trace ++ [Effect.runCode language code tc.input]) := by
  unfold loopBody pushed
  cases runCode i language code tc.input with
  | resolved output =>
    by_cases h : jsTrim output = jsTrim tc.output <;> simp [h]
  | rejected message => simp
  | rejectedNullish => rfl

theorem forLoop_of_pushedFrom_some (runCode : RunCode) (language code : String)
    (tcs : List TestCase) :
    ∀ (i : Nat) (st : LoopState) (rs : List CaseResult),
      pushedFrom runCode language code i tcs = some rs →
      forLoop runCode language code i tcs st = LoopResult.finished
        { results := st.results ++ rs,
          allPassed := st.allPassed && rs.all (fun r => r.passed),
          trace := st.trace ++ runCalls language code tcs } := by
  induction tcs with
  | nil =>
    intro i st rs h
    simp only [pushedFrom, Option.some.injEq] at h
    subst h
    simp [forLoop, runCalls]
  | cons tc rest ih =>
    intro i st rs h
    unfold pushedFrom at h
    cases hp : pushed runCode language code i tc with
    | none => simp [hp] at h
    | some r =>
      cases hq : pushedFrom runCode language code (i + 1) rest with
      | none => simp [hp, hq] at h
      | some rs' =>
        simp only [hp, hq, Option.some.injEq] at h
        subst h
        unfold forLoop
        rw [loopBody_eq, hp]
        simp only
        rw [ih (i + 1) _ rs' hq]
        simp [runCalls, Bool.and_assoc]

theorem forLoop_of_pushedFrom_none (runCode : RunCode) (language code : String)
    (tcs : List TestCase) :
    ∀ (i : Nat) (st : LoopState), pushedFrom runCode language code i tcs = none →
      ∃ n, n < tcs.length ∧
        forLoop runCode language code i tcs st =
          LoopResult.threw (st.trace ++ runCalls language code (tcs.take (n + 1))) := by
  induction tcs with
  | nil => intro i st h; simp [pushedFrom] at h
  | cons tc rest ih =>
    intro i st h
    cases hp : pushed runCode language code i tc with
    | none =>
      refine ⟨0, by simp, ?_⟩
      unfold forLoop
      rw [loopBody_eq, hp]
      simp [runCalls]
    | some r =>
      have hq : pushedFrom runCode language code (i + 1) rest = none := by
        unfold pushedFrom at h
        rw [hp] at h
        cases hq : pushedFrom runCode language code (i + 1) rest with
        | none => rfl
        | some rs' => simp [hq] at h
      obtain ⟨n, hn, hloop⟩ := ih (i + 1)
        { results := st.results ++ [r], allPassed := st.allPassed && r.passed,
          trace := st.trace ++ [Effect.runCode language code tc.input] } hq
      refine ⟨n + 1, by simpa using hn, ?_⟩
      unfold forLoop
      rw [loopBody_eq, hp]
      simp only
      rw [hloop]
      simp [runCalls]

theorem pushedFrom_length (runCode : RunCode) (language code : String) (tcs : List TestCase) :
    ∀ (i : Nat) (rs : List CaseResult), pushedFrom runCode language code i tcs = some rs →
      rs.length = tcs.length := by
  induction tcs with
  | nil => intro i rs h; simp only [pushedFrom, Option.some.injEq] at h; subst h; rfl
  | cons tc rest ih =>
    intro i rs h
    unfold pushedFrom at h
    cases hp : pushed runCode language code i tc with
    | none => simp [hp] at h
    | some r =>
      cases hq : pushedFrom runCode language code (i + 1) rest with
      | none => simp [hp, hq] at h
      | some rs' =>
        simp only [hp, hq, Option.some.injEq] at h
        subst h
        simp [ih (i + 1) rs' hq]

theorem pushedFrom_getElem? (runCode : RunCode) (language code : String) (tcs : List TestCase) :
    ∀ (i : Nat) (rs : List CaseResult), pushedFrom runCode language code i tcs = some rs →
      ∀ j : Nat, rs[j]? = (tcs[j]?).bind (pushed runCode language code (i + j)) := by
  induction tcs with
  | nil => intro i rs h j; simp only [pushedFrom, Option.some.injEq] at h; subst h; simp
  | cons tc rest ih =>
    intro i rs h j
    unfold pushedFrom at h
    cases hp : pushed runCode language code i tc with
    | none => simp [hp] at h
    | some r =>
      cases hq : pushedFrom runCode language code (i + 1) rest with
      | none => simp [hp, hq] at h
      | some rs' =>
        simp only [hp, hq, Option.some.injEq] at h
        subst h
        cases j with
        | zero => simp [hp]
        | succ j => simp [ih (i + 1) rs' hq j, Nat.add_assoc, Nat.add_comm 1 j]

/-- A list of results exists as soon as no call in range rejects with `null`/`undefined`. -/
theorem pushedFrom_isSome (runCode : RunCode) (language code : String) (tcs : List TestCase) :
    ∀ i : Nat,
      (∀ j tc, tcs[j]? = some tc →
        runCode (i + j) language code tc.input ≠ RunOutcome.rejectedNullish) →
      ∃ rs, pushedFrom runCode language code i tcs = some rs := by
  induction tcs with
  | nil => intro i _; exact ⟨[], rfl⟩
  | cons tc rest ih =>
    intro i h
    have h0 := h 0 tc (by simp)
    obtain ⟨rs', hq⟩ := ih (i + 1) (fun j t ht => by
      have := h (j + 1) t (by simpa using ht)
      rwa [Nat.add_assoc, Nat.add_comm 1 j])
    have hp : ∃ r, pushed runCode language code i tc = some r := by
      unfold pushed
      cases hr : runCode i language code tc.input with
      | resolved output => exact ⟨_, rfl⟩
      | rejected message => exact ⟨_, rfl⟩
      | rejectedNullish => exact absurd hr (by simpa using h0)
    obtain ⟨r, hp⟩ := hp
    exact ⟨r :: rs', by unfold pushedFrom; rw [hp, hq]⟩

theorem pushed_input (runCode : RunCode) (language code : String) (i : Nat) (tc : TestCase)
    (r : CaseResult) (h : pushed runCode language code i tc = some r) : r.input = tc.input := by
  unfold pushed at h
  cases hr : runCode i language code tc.input <;> rw [hr] at h <;>
    simp only [Option.some.injEq] at h <;> first | (subst h; rfl) | exact absurd h (by simp)

theorem pushed_expected (runCode : RunCode) (language code : String) (i : Nat) (tc : TestCase)
    (r : CaseResult) (h : pushed runCode language code i tc = some r) :
    r.expected = tc.output := by
  unfold pushed at h
  cases hr : runCode i language code tc.input <;> rw [hr] at h <;>
    simp only [Option.some.injEq] at h <;> first | (subst h; rfl) | exact absurd h (by simp)

/-- The handler on a non-empty list when every call can be absorbed, in closed form. -/
theorem handleRunCode_some (runCode : RunCode) (saveUserCode : SaveUserCode) (s : State)
    (rs : List CaseResult) (h : s.testCases ≠ [])
    (hrs : pushedFrom runCode s.language s.code 0 s.testCases = some rs) :
    handleRunCode runCode saveUserCode s =
      { state := { s with
          testResults := rs,
          output := formatResults rs,
          status := newStatus (rs.all (fun r => r.passed)) rs },
        trace := runCalls s.language s.code s.testCases ++
          saveStep saveUserCode s (newStatus (rs.all (fun r => r.passed)) rs),
        completed := true } := by
  have hpos : s.testCases.length > 0 := List.length_pos.mpr h
  have e := forLoop_of_pushedFrom_some runCode s.language s.code s.testCases 0 loopInit rs hrs
  unfold handleRunCode
  rw [if_pos hpos, e]
  simp [loopInit]

/-- The handler on a non-empty list when a call rejects with `null`/`undefined`: nothing is
set, and the calls made are the `runCode` calls up to the rejected one. -/
theorem handleRunCode_none (runCode : RunCode) (saveUserCode : SaveUserCode) (s : State)
    (h : s.testCases ≠ [])
    (hrs : pushedFrom runCode s.language s.code 0 s.testCases = none) :
    ∃ n, n < s.testCases.length ∧
      handleRunCode runCode saveUserCode s =
        { state := s, trace := runCalls s.language s.code (s.testCases.take (n + 1)),
          completed := false } := by
  have hpos : s.testCases.length > 0 := List.length_pos.mpr h
  obtain ⟨n, hn, e⟩ :=
    forLoop_of_pushedFrom_none runCode s.language s.code s.testCases 0 loopInit hrs
  refine ⟨n, hn, ?_⟩
  unfold handleRunCode
  rw [if_pos hpos, e]
  simp [loopInit]

/-- The handler on an empty list of test cases, in closed form. -/
theorem handleRunCode_empty (runCode : RunCode) (saveUserCode : SaveUserCode) (s : State)
    (h : s.testCases = []) :
    handleRunCode runCode saveUserCode s =
      { state := { s with output := "No test cases available" }, trace := [],
        completed := true } := by
  unfold handleRunCode
  simp [h]

/-- A completed run over a non-empty list built a full list of results. -/
theorem completed_run (runCode : RunCode) (saveUserCode : SaveUserCode) (s : State)
    (h : s.testCases ≠ []) (hdone : completes runCode saveUserCode s = true) :
    ∃ rs, pushedFrom runCode s.language s.code 0 s.testCases = some rs ∧
      resultsOf runCode saveUserCode s = rs ∧
      statusOf runCode saveUserCode s = newStatus (rs.all (fun r => r.passed)) rs ∧
      callsOf runCode saveUserCode s = runCalls s.language s.code s.testCases ++
        saveStep saveUserCode s (statusOf runCode saveUserCode s) := by
  cases hrs : pushedFrom runCode s.language s.code 0 s.testCases with
  | none =>
    obtain ⟨n, _, e⟩ := handleRunCode_none runCode saveUserCode s h hrs
    unfold completes at hdone
    rw [e] at hdone
    exact absurd hdone (by simp)
  | some rs =>
    have e := handleRunCode_some runCode saveUserCode s rs h hrs
    refine ⟨rs, rfl, ?_, ?_, ?_⟩
    · unfold resultsOf; rw [e]
    · unfold statusOf; rw [e]
    · unfold callsOf statusOf; rw [e]

/-- The run completes when no call rejects with `null` or `undefined`. -/
theorem completes_of_no_nullish (runCode : RunCode) (saveUserCode : SaveUserCode) (s : State)
    (h : ∀ j tc, s.testCases[j]? = some tc →
      runCode j s.language s.code tc.input ≠ RunOutcome.rejectedNullish) :
    completes runCode saveUserCode s = true := by
  unfold completes
  by_cases hne : s.testCases = []
  · rw [handleRunCode_empty runCode saveUserCode s hne]
  · obtain ⟨rs, hrs⟩ := pushedFrom_isSome runCode s.language s.code s.testCases 0
      (fun j tc htc => by rw [Nat.zero_add]; exact h j tc htc)
    rw [handleRunCode_some runCode saveUserCode s rs hne hrs]

/-- The state is the captured one when the run does not complete. -/
theorem state_of_not_completed (runCode : RunCode) (saveUserCode : SaveUserCode) (s : State)
    (hdone : completes runCode saveUserCode s = false) :
    (handleRunCode runCode saveUserCode s).state = s ∧
    ∃ n, callsOf runCode saveUserCode s = runCalls s.language s.code (s.testCases.take n) := by
  by_cases hne : s.testCases = []
  · unfold completes at hdone
    rw [handleRunCode_empty runCode saveUserCode s hne] at hdone
    exact absurd hdone (by simp)
  · cases hrs : pushedFrom runCode s.language s.code 0 s.testCases with
    | some rs =>
      unfold completes at hdone
      rw [handleRunCode_some runCode saveUserCode s rs hne hrs] at hdone
      exact absurd hdone (by simp)
    | none =>
      obtain ⟨n, _, e⟩ := handleRunCode_none runCode saveUserCode s hne hrs
      unfold callsOf
      rw [e]
      exact ⟨rfl, n + 1, rfl⟩

theorem newStatus_spec (rs : List CaseResult) (hne : rs ≠ []) :
    (newStatus (rs.all (fun r => r.passed)) rs = "solved" ↔ ∀ r ∈ rs, r.passed = true) ∧
    (newStatus (rs.all (fun r => r.passed)) rs = "attempted" ↔
      (∃ r ∈ rs, r.passed = true) ∧ ¬ ∀ r ∈ rs, r.passed = true) ∧
    (newStatus (rs.all (fun r => r.passed)) rs = "unsolved" ↔ ∀ r ∈ rs, r.passed = false) ∧
    newStatus (rs.all (fun r => r.passed)) rs = (aggregate rs).toStatus := by
  have d1 : ("solved" : String) ≠ "attempted" := by decide
  have d2 : ("solved" : String) ≠ "unsolved" := by decide
  have d3 : ("attempted" : String) ≠ "unsolved" := by decide
  have d4 : ("attempted" : String) ≠ "solved" := by decide
  have d5 : ("unsolved" : String) ≠ "solved" := by decide
  have d6 : ("unsolved" : String) ≠ "attempted" := by decide
  obtain ⟨r0, hr0⟩ := List.exists_mem_of_ne_nil rs hne
  by_cases hall : ∀ r ∈ rs, r.passed = true
  · have hA : rs.all (fun r => r.passed) = true := by simpa using hall
    have h0 : ¬ ∀ r ∈ rs, r.passed = false := by
      intro hf
      have := hall r0 hr0
      rw [hf r0 hr0] at this
      exact Bool.noConfusion this
    simp only [newStatus, aggregate, hA, if_true, if_neg hne, Verdict.toStatus]
    exact ⟨⟨fun _ => hall, fun _ => trivial⟩, ⟨fun h => absurd h d1, fun h => absurd hall h.2⟩,
      ⟨fun h => absurd h d2, fun h => absurd h h0⟩, trivial⟩
  · have hA : rs.all (fun r => r.passed) = false := by
      cases hx : rs.all (fun r => r.passed)
      · rfl
      · exact absurd (by simpa using hx) hall
    by_cases hany : ∃ r ∈ rs, r.passed = true
    · have hB : rs.any (fun r => r.passed) = true := by simpa using hany
      have h0 : ¬ ∀ r ∈ rs, r.passed = false := by
        intro hf
        obtain ⟨r, hr, hp⟩ := hany
        rw [hf r hr] at hp
        exact Bool.noConfusion hp
      simp only [newStatus, aggregate, hA, hB, if_true, if_neg hne, Verdict.toStatus]
      refine ⟨⟨fun h => absurd h d4, fun h => absurd h hall⟩, ⟨fun _ => ⟨hany, hall⟩, fun _ => ?_⟩,
        ⟨fun h => absurd h d3, fun h => absurd h h0⟩, ?_⟩ <;> simp
    · have hB : rs.any (fun r => r.passed) = false := by
        cases hx : rs.any (fun r => r.passed)
        · rfl
        · exact absurd (by simpa using hx) hany
      have h0 : ∀ r ∈ rs, r.passed = false := by
        intro r hr
        cases hp : r.passed
        · rfl
        · exact absurd ⟨r, hr, hp⟩ hany
      simp only [newStatus, aggregate, hA, hB, if_neg hne, Verdict.toStatus]
      refine ⟨⟨fun h => absurd h d5, fun h => absurd h hall⟩,
        ⟨fun h => absurd h d6, fun h => absurd h.1 hany⟩, ⟨fun _ => h0, fun _ => ?_⟩, ?_⟩ <;> simp

theorem trimChars_decompose (cs : List Char) :
    ∃ pre post, cs = pre ++ trimChars cs ++ post ∧
      (∀ c ∈ pre, isJsWhiteSpace c = true) ∧ (∀ c ∈ post, isJsWhiteSpace c = true) := by
  refine ⟨cs.takeWhile isJsWhiteSpace,
    (((cs.dropWhile isJsWhiteSpace).reverse).takeWhile isJsWhiteSpace).reverse, ?_, ?_, ?_⟩
  · have h1 := List.takeWhile_append_dropWhile isJsWhiteSpace cs
    have h2 := List.takeWhile_append_dropWhile isJsWhiteSpace (cs.dropWhile isJsWhiteSpace).reverse
    have h3 := congrArg List.reverse h2
    rw [List.reverse_append, List.reverse_reverse] at h3
    unfold trimChars
    rw [List.append_assoc, h3, h1]
  · intro c hc
    exact List.mem_takeWhile_imp hc
  · intro c hc
    exact List.mem_takeWhile_imp (List.mem_reverse.mp hc)

theorem trimChars_head (cs : List Char) (c : Char) (h : (trimChars cs).head? = some c) :
    isJsWhiteSpace c = false := by
  have h2 := List.takeWhile_append_dropWhile isJsWhiteSpace (cs.dropWhile isJsWhiteSpace).reverse
  have h3 := congrArg List.reverse h2
  rw [List.reverse_append, List.reverse_reverse] at h3
  have h4 : (cs.dropWhile isJsWhiteSpace).head? = some c := by
    rw [← h3]
    change (trimChars cs ++ _).head? = some c
    rw [List.head?_append, h]
    rfl
  have := List.head?_dropWhile_not isJsWhiteSpace cs
  rw [h4] at this
  simpa using this

theorem trimChars_getLast (cs : List Char) (c : Char) (h : (trimChars cs).getLast? = some c) :
    isJsWhiteSpace c = false := by
  unfold trimChars at h
  rw [List.getLast?_reverse] at h
  have := List.head?_dropWhile_not isJsWhiteSpace (cs.dropWhile isJsWhiteSpace).reverse
  rw [h] at this
  simpa using this

theorem saveStep_shape (saveUserCode : SaveUserCode) (s : State) (status : String) :
    saveStep saveUserCode s status = [] ∨
    (∃ id userId, saveStep saveUserCode s status =
        [Effect.saveUserCode id userId s.code s.language status]) ∨
    (∃ id userId, saveStep saveUserCode s status =
        [Effect.saveUserCode id userId s.code s.language status,
         Effect.consoleError "Failed to save user code:"]) := by
  unfold saveStep
  split
  · rename_i userId id _ _
    split
    · split
      · exact Or.inr (Or.inl ⟨id, userId, rfl⟩)
      · exact Or.inr (Or.inr ⟨id, userId, rfl⟩)
    · exact Or.inl rfl
  · exact Or.inl rfl

theorem saveStep_no_run (saveUserCode : SaveUserCode) (s : State) (status : String) :
    (saveStep saveUserCode s status).filter Effect.isRun = [] := by
  rcases saveStep_shape saveUserCode s status with h | ⟨_, _, h⟩ | ⟨_, _, h⟩ <;>
    rw [h] <;> rfl

theorem runCalls_filter_isRun (language code : String) (tcs : List TestCase) :
    (runCalls language code tcs).filter Effect.isRun = runCalls language code tcs := by
  induction tcs with
  | nil => rfl
  | cons tc rest ih =>
    simp only [runCalls, List.map_cons] at ih ⊢
    rw [List.filter_cons_of_pos (by rfl), ih]

theorem runCalls_filter_isSave (language code : String) (tcs : List TestCase) :
    (runCalls language code tcs).filter Effect.isSave = [] := by
  induction tcs with
  | nil => rfl
  | cons tc rest ih =>
    simp only [runCalls, List.map_cons] at ih ⊢
    rw [List.filter_cons_of_neg (by simp [Effect.isSave]), ih]

theorem saveStep_present (saveUserCode : SaveUserCode) (s : State) (status id userId : String)
    (hu : s.userId = some userId) (hu' : userId ≠ "") (hid : s.id = some id) (hid' : id ≠ "")
    (hl : s.language ≠ "") :
    saveStep saveUserCode s status =
      Effect.saveUserCode id userId s.code s.language status ::
        (match saveUserCode id userId s.code s.language status with
         | SaveOutcome.resolved => []
         | SaveOutcome.rejected => [Effect.consoleError "Failed to save user code:"]) := by
  unfold saveStep
  rw [hu, hid]
  have hc : (truthy (some userId) && truthy (some id) && truthy (some s.language)) = true := by
    simp [truthy, hu', hid', hl]
  simp only [hc, if_true]
  cases saveUserCode id userId s.code s.language status <;> rfl

theorem saveStep_no_user (saveUserCode : SaveUserCode) (s : State) (status : String)
    (hu : s.userId = none) : saveStep saveUserCode s status = [] := by
  unfold saveStep
  rw [hu]

theorem ne_nil_of_getElem? {α : Type} (l : List α) (i : Nat) (a : α) (h : l[i]? = some a) :
    l ≠ [] := by
  intro hnil
  rw [hnil] at h
  simp at h

theorem pushedFrom_ne_nil (runCode : RunCode) (language code : String) (i : Nat)
    (tcs : List TestCase) (rs : List CaseResult) (h : tcs ≠ [])
    (hrs : pushedFrom runCode language code i tcs = some rs) : rs ≠ [] := by
  intro hnil
  have := pushedFrom_length runCode language code tcs i rs hrs
  rw [hnil] at this
  exact h (List.length_eq_zero.mp this.symm)

/-- In a completed run over a non-empty list, the status is "solved" exactly when every
stored result passed. -/
theorem status_all_passed (runCode : RunCode) (saveUserCode : SaveUserCode) (s : State)
    (h : s.testCases ≠ []) (hdone : completes runCode saveUserCode s = true) :
    statusOf runCode saveUserCode s = "solved" ↔
      ∀ r ∈ resultsOf runCode saveUserCode s, r.passed = true := by
  obtain ⟨rs, hrs, hres, hst, _⟩ := completed_run runCode saveUserCode s h hdone
  rw [hst, hres]
  exact (newStatus_spec rs (pushedFrom_ne_nil runCode s.language s.code 0 s.testCases rs h hrs)).1

/-- In a completed run the result stored at index `k` is the one pushed for call `k`. -/
theorem stored_result (runCode : RunCode) (saveUserCode : SaveUserCode) (s : State)
    (k : Nat) (tc : TestCase) (htc : s.testCases[k]? = some tc)
    (hdone : completes runCode saveUserCode s = true) :
    (resultsOf runCode saveUserCode s)[k]? = pushed runCode s.language s.code k tc := by
  obtain ⟨rs, hrs, hres, _, _⟩ :=
    completed_run runCode saveUserCode s (ne_nil_of_getElem? _ k tc htc) hdone
  rw [hres, pushedFrom_getElem? runCode s.language s.code s.testCases 0 rs hrs k, htc]
  simp

/-- A call that rejects with an error value is absorbed: in a completed run the result at
`k` has `passed = false`, `runCode` is called once per test case in order, one result per
test case is stored, every other index gets the result it gets under any service that
differs only on call `k` and also completes, and the status is not "solved". -/
theorem error_rejection_is_absorbed (runCode runCode' : RunCode) (saveUserCode : SaveUserCode)
    (s : State) (k : Nat) (tc : TestCase) (message : Option String)
    (htc : s.testCases[k]? = some tc)
    (hfail : runCode k s.language s.code tc.input = RunOutcome.rejected message)
    (hsame : ∀ j, j ≠ k → ∀ l c x, runCode j l c x = runCode' j l c x)
    (hdone : completes runCode saveUserCode s = true)
    (hdone' : completes runCode' saveUserCode s = true) :
    ((resultsOf runCode saveUserCode s)[k]?).map CaseResult.passed = some false ∧
    (resultsOf runCode saveUserCode s).length = s.testCases.length ∧
    (callsOf runCode saveUserCode s).filter Effect.isRun =
      s.testCases.map (fun t => Effect.runCode s.language s.code t.input) ∧
    (∀ j, j ≠ k →
      (resultsOf runCode saveUserCode s)[j]? = (resultsOf runCode' saveUserCode s)[j]?) ∧
    statusOf runCode saveUserCode s ≠ "solved" := by
  have hne : s.testCases ≠ [] := ne_nil_of_getElem? _ k tc htc
  obtain ⟨rs, hrs, hres, _, hcalls⟩ := completed_run runCode saveUserCode s hne hdone
  obtain ⟨rs', hrs', hres', _, _⟩ := completed_run runCode' saveUserCode s hne hdone'
  have hk : (resultsOf runCode saveUserCode s)[k]? =
      some { input := tc.input, expected := tc.output,
             output := "Error executing code: " ++ messageOrUnknown message,
             passed := false } := by
    rw [stored_result runCode saveUserCode s k tc htc hdone]
    simp only [pushed, hfail]
  refine ⟨?_, ?_, ?_, ?_, ?_⟩
  · rw [hk]; rfl
  · rw [hres]
    exact pushedFrom_length runCode s.language s.code s.testCases 0 rs hrs
  · rw [hcalls, List.filter_append, saveStep_no_run, runCalls_filter_isRun, List.append_nil]
    rfl
  · intro j hj
    rw [hres, hres', pushedFrom_getElem? runCode s.language s.code s.testCases 0 rs hrs j,
      pushedFrom_getElem? runCode' s.language s.code s.testCases 0 rs' hrs' j]
    cases s.testCases[j]? with
    | none => rfl
    | some t =>
      simp only [Option.some_bind, Nat.zero_add, pushed]
      rw [hsame j hj]
  · intro hsolved
    have hall := (status_all_passed runCode saveUserCode s hne hdone).mp hsolved
    have := hall _ (List.getElem?_mem hk)
    exact Bool.noConfusion this

/-- A completed run over a non-empty list with user id, problem id and language present
makes the `runCode` calls for all test cases in order, then one `saveUserCode` call with
`(id, userId, code, language, status)`, then at most the error log of a failed save. -/
theorem completed_run_saves_once (runCode : RunCode) (saveUserCode : SaveUserCode) (s : State)
    (id userId : String) (hne : s.testCases ≠ [])
    (hdone : completes runCode saveUserCode s = true)
    (hu : s.userId = some userId) (hu' : userId ≠ "")
    (hid : s.id = some id) (hid' : id ≠ "") (hl : s.language ≠ "") :
    (∃ tail : List Effect,
      callsOf runCode saveUserCode s =
        s.testCases.map (fun t => Effect.runCode s.language s.code t.input) ++
          Effect.saveUserCode id userId s.code s.language (statusOf runCode saveUserCode s) ::
            tail ∧
      (tail = [] ∨ tail = [Effect.consoleError "Failed to save user code:"])) ∧
    (callsOf runCode saveUserCode s).filter Effect.isSave =
      [Effect.saveUserCode id userId s.code s.language (statusOf runCode saveUserCode s)] ∧
    ((∀ r ∈ resultsOf runCode saveUserCode s, r.passed = true) →
      (callsOf runCode saveUserCode s).filter Effect.isSave =
        [Effect.saveUserCode id userId s.code s.language "solved"]) := by
  obtain ⟨_, _, _, _, hcalls⟩ := completed_run runCode saveUserCode s hne hdone
  rw [saveStep_present saveUserCode s (statusOf runCode saveUserCode s) id userId
    hu hu' hid hid' hl] at hcalls
  have hfilter : (callsOf runCode saveUserCode s).filter Effect.isSave =
      [Effect.saveUserCode id userId s.code s.language (statusOf runCode saveUserCode s)] := by
    rw [hcalls, List.filter_append, runCalls_filter_isSave, List.nil_append]
    cases saveUserCode id userId s.code s.language (statusOf runCode saveUserCode s) <;> rfl
  refine ⟨⟨_, hcalls, ?_⟩, hfilter, ?_⟩
  · cases saveUserCode id userId s.code s.language (statusOf runCode saveUserCode s)
    · exact Or.inl rfl
    · exact Or.inr rfl
  · intro hall
    rw [hfilter, (status_all_passed runCode saveUserCode s hne hdone).mpr hall]

/-- The state after the run and whether the run completes do not depend on the
persistence service. -/
theorem run_indep_of_save (runCode : RunCode) (saveUserCode saveUserCode' : SaveUserCode)
    (s : State) :
    (handleRunCode runCode saveUserCode s).state =
      (handleRunCode runCode saveUserCode' s).state ∧
    completes runCode saveUserCode s = completes runCode saveUserCode' s := by
  unfold completes
  by_cases h : s.testCases = []
  · rw [handleRunCode_empty runCode saveUserCode s h,
      handleRunCode_empty runCode saveUserCode' s h]
    exact ⟨rfl, rfl⟩
  · cases hrs : pushedFrom runCode s.language s.code 0 s.testCases with
    | some rs =>
      rw [handleRunCode_some runCode saveUserCode s rs h hrs,
        handleRunCode_some runCode saveUserCode' s rs h hrs]
      exact ⟨rfl, rfl⟩
    | none =>
      obtain ⟨n, _, e⟩ := handleRunCode_none runCode saveUserCode s h hrs
      obtain ⟨n', _, e'⟩ := handleRunCode_none runCode saveUserCode' s h hrs
      rw [e, e']
      exact ⟨rfl, rfl⟩

/-- The results, the status and whether the run completes do not depend on the user id. -/
theorem run_indep_of_user (runCode : RunCode) (saveUserCode : SaveUserCode) (s : State)
    (userId : Option String) (h : s.testCases ≠ []) :
    resultsOf runCode saveUserCode s =
      resultsOf runCode saveUserCode { s with userId := userId } ∧
    statusOf runCode saveUserCode s =
      statusOf runCode saveUserCode { s with userId := userId } ∧
    completes runCode saveUserCode s =
      completes runCode saveUserCode { s with userId := userId } := by
  have h' : ({ s with userId := userId } : State).testCases ≠ [] := h
  unfold resultsOf statusOf completes
  cases hrs : pushedFrom runCode s.language s.code 0 s.testCases with
  | some rs =>
    have hrs' : pushedFrom runCode ({ s with userId := userId } : State).language
        ({ s with userId := userId } : State).code 0
        ({ s with userId := userId } : State).testCases = some rs := hrs
    rw [handleRunCode_some runCode saveUserCode s rs h hrs,
      handleRunCode_some runCode saveUserCode _ rs h' hrs']
    exact ⟨rfl, rfl, rfl⟩
  | none =>
    have hrs' : pushedFrom runCode ({ s with userId := userId } : State).language
        ({ s with userId := userId } : State).code 0
        ({ s with userId := userId } : State).testCases = none := hrs
    obtain ⟨n, _, e⟩ := handleRunCode_none runCode saveUserCode s h hrs
    obtain ⟨n', _, e'⟩ := handleRunCode_none runCode saveUserCode _ h' hrs'
    rw [e, e']
    exact ⟨rfl, rfl, rfl⟩

/-! ## The claims -/

/-- C1: on a non-empty list of test cases, whatever the execution and persistence services
do, the status the handler computes is "solved" exactly when every result passed,
"attempted" exactly when some but not all passed, "unsolved" exactly when none passed; it
is the specification's aggregate of the final results list. A run that is cut short
computes no status. -/
theorem status_is_aggregate_of_results (runCode : RunCode) (saveUserCode : SaveUserCode)
    (s : State) (h : s.testCases ≠ []) (hdone : completes runCode saveUserCode s = true) :
    (statusOf runCode saveUserCode s = "solved" ↔
      ∀ r ∈ resultsOf runCode saveUserCode s, r.passed = true) ∧
    (statusOf runCode saveUserCode s = "attempted" ↔
      (∃ r ∈ resultsOf runCode saveUserCode s, r.passed = true) ∧
        ¬ ∀ r ∈ resultsOf runCode saveUserCode s, r.passed = true) ∧
    (statusOf runCode saveUserCode s = "unsolved" ↔
      ∀ r ∈ resultsOf runCode saveUserCode s, r.passed = false) ∧
    statusOf runCode saveUserCode s =
      (aggregate (resultsOf runCode saveUserCode s)).toStatus := by
  obtain ⟨rs, hrs, hres, hst, _⟩ := completed_run runCode saveUserCode s h hdone
  rw [hst, hres]
  exact newStatus_spec rs (pushedFrom_ne_nil runCode s.language s.code 0 s.testCases rs h hrs)

/-- C1, instance: three cases of which the second times out give status "attempted". -/
theorem status_is_aggregate_of_results_witness :
    threeCases.testCases ≠ [] ∧ completes timeoutOnSecond saveFails threeCases = true ∧
    (statusOf timeoutOnSecond saveFails threeCases = "attempted" ↔
      (∃ r ∈ resultsOf timeoutOnSecond saveFails threeCases, r.passed = true) ∧
        ¬ ∀ r ∈ resultsOf timeoutOnSecond saveFails threeCases, r.passed = true) ∧
    statusOf timeoutOnSecond saveFails threeCases = "attempted" :=
  ⟨by decide, by decide,
   (status_is_aggregate_of_results timeoutOnSecond saveFails threeCases (by decide)
      (by decide)).2.1,
   by decide⟩

/-- C2, counterexample: with zero test cases the results list in the state after the run
still holds the result of an earlier run, so its length is 1 against 0 test cases. -/
theorem stale_results_outnumber_test_cases :
    noCasesStale.testCases = [] ∧
    (resultsOf alwaysFive saveOk noCasesStale).length = 1 ∧
    (resultsOf alwaysFive saveOk noCasesStale).length ≠ noCasesStale.testCases.length := by
  decide

/-- C2, amended: for every non-empty list of test cases and every behaviour of the
execution service under which the run completes, the results list the handler stores has
the length of the test case list and, index by index, carries the test case's `input` as
`input` and its `output` as `expected`. -/
theorem results_align_with_test_cases (runCode : RunCode) (saveUserCode : SaveUserCode)
    (s : State) (h : s.testCases ≠ []) (hdone : completes runCode saveUserCode s = true) :
    (resultsOf runCode saveUserCode s).length = s.testCases.length ∧
    ∀ i : Nat,
      ((resultsOf runCode saveUserCode s)[i]?).map CaseResult.input =
        (s.testCases[i]?).map TestCase.input ∧
      ((resultsOf runCode saveUserCode s)[i]?).map CaseResult.expected =
        (s.testCases[i]?).map TestCase.output := by
  obtain ⟨rs, hrs, hres, _, _⟩ := completed_run runCode saveUserCode s h hdone
  refine ⟨?_, ?_⟩
  · rw [hres]
    exact pushedFrom_length runCode s.language s.code s.testCases 0 rs hrs
  · intro i
    cases htc : s.testCases[i]? with
    | none =>
      have hlen := pushedFrom_length runCode s.language s.code s.testCases 0 rs hrs
      have hi : s.testCases.length ≤ i := List.getElem?_eq_none_iff.mp htc
      have : (resultsOf runCode saveUserCode s)[i]? = none := by
        rw [hres]
        exact List.getElem?_eq_none_iff.mpr (by omega)
      rw [this]
      exact ⟨rfl, rfl⟩
    | some tc =>
      have hk := stored_result runCode saveUserCode s i tc htc hdone
      cases hp : pushed runCode s.language s.code i tc with
      | none =>
        have hlen := pushedFrom_length runCode s.language s.code s.testCases 0 rs hrs
        have hi : i < s.testCases.length := (List.getElem?_eq_some.mp htc).1
        have hnone : rs[i]? = none := by
          rw [pushedFrom_getElem? runCode s.language s.code s.testCases 0 rs hrs i, htc]
          simpa using hp
        exact absurd (List.getElem?_eq_none_iff.mp hnone) (by omega)
      | some r =>
        rw [hk, hp]
        simp only [Option.map_some']
        rw [pushed_input runCode s.language s.code i tc r hp,
          pushed_expected runCode s.language s.code i tc r hp]
        exact ⟨rfl, rfl⟩

/-- C2, instance: three cases of which the second times out give three aligned results. -/
theorem results_align_with_test_cases_witness :
    threeCases.testCases ≠ [] ∧ completes timeoutOnSecond saveOk threeCases = true ∧
    (resultsOf timeoutOnSecond saveOk threeCases).length = threeCases.testCases.length ∧
    (resultsOf timeoutOnSecond saveOk threeCases).map (fun r => (r.input, r.expected)) =
      [("1", "5"), ("2", "5"), ("3", "5")] :=
  ⟨by decide, by decide,
   (results_align_with_test_cases timeoutOnSecond saveOk threeCases (by decide)
      (by decide)).1,
   by decide⟩

/-- C3: when the execution service resolves with output text `a` for the case at index `i`,
the loop body pushes a result whose `passed` equals the test `trim(a) = trim(expected)`,
and that result is the one stored at index `i` when the run completes; `trim` only strips
a white-space prefix and a white-space suffix, leaving a text that neither starts nor ends
with white space, so output "5\n" passes against "5" while output "5 " fails against
"05". -/
theorem passed_is_trimmed_equality (runCode : RunCode) (saveUserCode : SaveUserCode)
    (s : State) (i : Nat) (tc : TestCase) (a : String)
    (htc : s.testCases[i]? = some tc)
    (hrun : runCode i s.language s.code tc.input = RunOutcome.resolved a) :
    (∀ st : LoopState, ∃ l : LoopState,
      loopBody runCode s.language s.code i tc st = LoopResult.finished l ∧
      l.results = st.results ++
        [{ input := tc.input, expected := tc.output, output := a,
           passed := decide (jsTrim a = jsTrim tc.output) }]) ∧
    (completes runCode saveUserCode s = true →
      (resultsOf runCode saveUserCode s)[i]? =
        some { input := tc.input, expected := tc.output, output := a,
               passed := decide (jsTrim a = jsTrim tc.output) }) ∧
    (∀ t : String, ∃ pre post : List Char,
      t.data = pre ++ (jsTrim t).data ++ post ∧
      (∀ c ∈ pre, isJsWhiteSpace c = true) ∧ (∀ c ∈ post, isJsWhiteSpace c = true) ∧
      (∀ c, (jsTrim t).data.head? = some c → isJsWhiteSpace c = false) ∧
      (∀ c, (jsTrim t).data.getLast? = some c → isJsWhiteSpace c = false)) ∧
    decide (jsTrim "5\n" = jsTrim "5") = true ∧
    decide (jsTrim "5 " = jsTrim "05") = false := by
  have hp : pushed runCode s.language s.code i tc =
      some { input := tc.input, expected := tc.output, output := a,
             passed := decide (jsTrim a = jsTrim tc.output) } := by
    simp only [pushed, hrun]
  refine ⟨?_, ?_, ?_, by decide, by decide⟩
  · intro st
    rw [loopBody_eq, hp]
    exact ⟨_, rfl, rfl⟩
  · intro hdone
    rw [stored_result runCode saveUserCode s i tc htc hdone, hp]
  · intro t
    obtain ⟨pre, post, h1, h2, h3⟩ := trimChars_decompose t.data
    exact ⟨pre, post, h1, h2, h3, fun c hc => trimChars_head t.data c hc,
      fun c hc => trimChars_getLast t.data c hc⟩

/-- C3, instance: the first of three cases prints "5\n" against the expected "5". -/
theorem passed_is_trimmed_equality_witness :
    threeCases.testCases[0]? = some ⟨"1", "5"⟩ ∧
    alwaysFive 0 threeCases.language threeCases.code "1" = RunOutcome.resolved "5\n" ∧
    completes alwaysFive saveOk threeCases = true ∧
    (resultsOf alwaysFive saveOk threeCases)[0]? =
      some { input := "1", expected := "5", output := "5\n",
             passed := decide (jsTrim "5\n" = jsTrim "5") } :=
  ⟨by decide, by decide, by decide,
   (passed_is_trimmed_equality alwaysFive saveOk threeCases 0 ⟨"1", "5"⟩ "5\n"
      (by decide) (by decide)).2.1 (by decide)⟩

/-- C4, failing input: the second of three `runCode` calls rejects with `undefined`. The
read of `error.message` in the `catch` clause throws, the handler is left at once: the
third case is never executed, no result is stored for any case (none with
`passed = false` at index 1), and the status is not set. -/
theorem nullish_rejection_aborts_run :
    threeCases.testCases[1]? = some ⟨"2", "5"⟩ ∧
    undefinedOnSecond 1 threeCases.language threeCases.code "2" =
      RunOutcome.rejectedNullish ∧
    completes undefinedOnSecond saveOk threeCases = false ∧
    callsOf undefinedOnSecond saveOk threeCases =
      [Effect.runCode "cpp" "src" "1", Effect.runCode "cpp" "src" "2"] ∧
    Effect.runCode "cpp" "src" "3" ∉ callsOf undefinedOnSecond saveOk threeCases ∧
    (resultsOf undefinedOnSecond saveOk threeCases)[1]? = none ∧
    (handleRunCode undefinedOnSecond saveOk threeCases).state = threeCases := by
  decide

/-- C5, failing input: three test cases, user id, problem id and language present, and the
second `runCode` call rejects with `undefined`. The handler is left before line 168 and
issues no `saveUserCode` call, where a service that never fails gets exactly one. -/
theorem nullish_rejection_skips_save :
    threeCases.testCases ≠ [] ∧ truthy threeCases.userId = true ∧
    truthy threeCases.id = true ∧ truthy (some threeCases.language) = true ∧
    (callsOf undefinedOnSecond saveOk threeCases).filter Effect.isSave = [] ∧
    (callsOf alwaysFive saveOk threeCases).filter Effect.isSave =
      [Effect.saveUserCode "p1" "u1" "src" "cpp" "solved"] := by
  decide

/-- C6, counterexample: a signed-in user runs a problem without test cases and the handler
makes no `saveUserCode` call at all. -/
theorem empty_run_issues_no_save :
    noCasesStale.testCases = [] ∧ truthy noCasesStale.userId = true ∧
    truthy noCasesStale.id = true ∧
    ¬ ∃ e ∈ callsOf alwaysFive saveOk noCasesStale, Effect.isSave e = true := by
  decide

/-- C6, amended: with zero test cases the handler never calls `saveUserCode`, whatever the
user id, problem id and language are. -/
theorem empty_run_never_saves (runCode : RunCode) (saveUserCode : SaveUserCode) (s : State)
    (h : s.testCases = []) :
    (callsOf runCode saveUserCode s).filter Effect.isSave = [] ∧
    ∀ id userId code language status,
      Effect.saveUserCode id userId code language status ∉ callsOf runCode saveUserCode s := by
  have hc : callsOf runCode saveUserCode s = [] := by
    unfold callsOf
    rw [handleRunCode_empty runCode saveUserCode s h]
  rw [hc]
  exact ⟨rfl, fun _ _ _ _ _ hmem => List.not_mem_nil _ hmem⟩

/-- C6, instance: a signed-in user on a problem without test cases. -/
theorem empty_run_never_saves_witness :
    noCasesStale.testCases = [] ∧
    (callsOf alwaysFive saveFails noCasesStale).filter Effect.isSave = [] :=
  ⟨rfl, (empty_run_never_saves alwaysFive saveFails noCasesStale rfl).1⟩

/-- C7, counterexample: with zero test cases, a status "solved" restored from the store and
a result left from an earlier run are both still there after the handler has run. -/
theorem empty_run_keeps_stale_state :
    noCasesStale.testCases = [] ∧
    statusOf alwaysFive saveOk noCasesStale = "solved" ∧
    statusOf alwaysFive saveOk noCasesStale ≠ "unsolved" ∧
    resultsOf alwaysFive saveOk noCasesStale ≠ [] := by
  decide

/-- C7, amended: with zero test cases the handler calls neither service and only sets the
output to "No test cases available"; the results list and the status keep the values they
had before, so they are empty and "unsolved" when they were so before the run. -/
theorem empty_run_only_sets_marker (runCode : RunCode) (saveUserCode : SaveUserCode)
    (s : State) (h : s.testCases = []) :
    callsOf runCode saveUserCode s = [] ∧
    (handleRunCode runCode saveUserCode s).state =
      { s with output := "No test cases available" } ∧
    (handleRunCode runCode saveUserCode s).state.output = "No test cases available" ∧
    resultsOf runCode saveUserCode s = s.testResults ∧
    statusOf runCode saveUserCode s = s.status ∧
    (s.testResults = [] → s.status = "unsolved" →
      resultsOf runCode saveUserCode s = [] ∧ statusOf runCode saveUserCode s = "unsolved") := by
  unfold callsOf resultsOf statusOf
  rw [handleRunCode_empty runCode saveUserCode s h]
  exact ⟨rfl, rfl, rfl, rfl, rfl, fun h1 h2 => ⟨h1, h2⟩⟩

/-- C7, instance: a problem without test cases after a restored "solved" status. -/
theorem empty_run_only_sets_marker_witness :
    noCasesStale.testCases = [] ∧
    (handleRunCode timeoutOnSecond saveOk noCasesStale).state =
      { noCasesStale with output := "No test cases available" } :=
  ⟨rfl, (empty_run_only_sets_marker timeoutOnSecond saveOk noCasesStale rfl).2.1⟩

/-- C8, counterexample: the second case times out, and reading `executionError` on its
result gives `undefined`, not the reason "timeout". -/
theorem failed_result_has_no_executionError :
    timeoutOnSecond 1 threeCases.language threeCases.code "2" =
      RunOutcome.rejected (some "timeout") ∧
    ((resultsOf timeoutOnSecond saveOk threeCases)[1]?).map
      (fun r => r.getProp "executionError") = some JsValue.undefined ∧
    ((resultsOf timeoutOnSecond saveOk threeCases)[1]?).map
      (fun r => r.getProp "executionError") ≠ some (JsValue.str "timeout") := by
  decide

/-- C8, amended: when the execution call for the case at index `k` rejects with an error
whose message is the reason, the loop body pushes a result, stored at `k` when the run
completes, that has `passed = false` and as output the text "Error executing code: "
followed by the reason, or by "Unknown error" when the reason is missing or empty; the
result object has no `executionError` property, the reason being embedded in the output
text only. -/
theorem failed_result_embeds_reason (runCode : RunCode) (saveUserCode : SaveUserCode)
    (s : State) (k : Nat) (tc : TestCase) (message : Option String)
    (htc : s.testCases[k]? = some tc)
    (hfail : runCode k s.language s.code tc.input = RunOutcome.rejected message) :
    ∃ res : CaseResult,
      (∀ st : LoopState, ∃ l : LoopState,
        loopBody runCode s.language s.code k tc st = LoopResult.finished l ∧
        l.results = st.results ++ [res]) ∧
      (completes runCode saveUserCode s = true →
        (resultsOf runCode saveUserCode s)[k]? = some res) ∧
      res.passed = false ∧
      res.input = tc.input ∧ res.expected = tc.output ∧
      res.output = "Error executing code: " ++ messageOrUnknown message ∧
      (∀ r : String, message = some r → r.data <:+: res.output.data) ∧
      (∀ r : String, message = some r → r ≠ "" → res.output = "Error executing code: " ++ r) ∧
      ((message = none ∨ message = some "") →
        res.output = "Error executing code: Unknown error") ∧
      res.getProp "executionError" = JsValue.undefined := by
  have hp : pushed runCode s.language s.code k tc =
      some { input := tc.input, expected := tc.output,
             output := "Error executing code: " ++ messageOrUnknown message,
             passed := false } := by
    simp only [pushed, hfail]
  refine ⟨{ input := tc.input, expected := tc.output,
            output := "Error executing code: " ++ messageOrUnknown message,
            passed := false }, ?_, ?_, rfl, rfl, rfl, rfl, ?_, ?_, ?_, ?_⟩
  · intro st
    rw [loopBody_eq, hp]
    exact ⟨_, rfl, rfl⟩
  · intro hdone
    rw [stored_result runCode saveUserCode s k tc htc hdone, hp]
  · intro r hr
    subst hr
    by_cases hr' : r = ""
    · subst hr'
      exact List.nil_infix
    · simp only [messageOrUnknown, if_neg hr', String.data_append]
      exact (List.suffix_append _ _).isInfix
  · intro r hr hr'
    subst hr
    simp only [messageOrUnknown, if_neg hr']
  · intro hm
    rcases hm with hm | hm <;> subst hm <;> rfl
  · unfold CaseResult.getProp
    rw [if_neg (by decide), if_neg (by decide), if_neg (by decide), if_neg (by decide),
      if_neg (by decide)]

/-- C8, instance: the second of three cases times out. -/
theorem failed_result_embeds_reason_witness :
    threeCases.testCases[1]? = some ⟨"2", "5"⟩ ∧
    timeoutOnSecond 1 threeCases.language threeCases.code "2" =
      RunOutcome.rejected (some "timeout") ∧
    completes timeoutOnSecond saveOk threeCases = true ∧
    ∃ res : CaseResult, (resultsOf timeoutOnSecond saveOk threeCases)[1]? = some res ∧
      res.passed = false ∧ res.output = "Error executing code: timeout" :=
  ⟨by decide, by decide, by decide,
   match failed_result_embeds_reason timeoutOnSecond saveOk threeCases 1 ⟨"2", "5"⟩
      (some "timeout") (by decide) (by decide) with
   | ⟨res, _, h1, h2, _, _, _, _, h7, _, _⟩ =>
     ⟨res, h1 (by decide), h2, h7 "timeout" rfl (by decide)⟩⟩

/-- C9: the component state after the run, and in it the results list and the status, is
the same under any two persistence services, one that succeeds and one that fails alike,
and so is whether the run completes; a completed run in which every result passed ends
with status "solved" under a failing save. -/
theorem save_outcome_does_not_change_results (runCode : RunCode)
    (saveUserCode saveUserCode' : SaveUserCode) (s : State) :
    (handleRunCode runCode saveUserCode s).state =
      (handleRunCode runCode saveUserCode' s).state ∧
    resultsOf runCode saveUserCode s = resultsOf runCode saveUserCode' s ∧
    statusOf runCode saveUserCode s = statusOf runCode saveUserCode' s ∧
    completes runCode saveUserCode s = completes runCode saveUserCode' s ∧
    (s.testCases ≠ [] → completes runCode saveUserCode s = true →
      (∀ r ∈ resultsOf runCode saveUserCode s, r.passed = true) →
      statusOf runCode (fun _ _ _ _ _ => SaveOutcome.rejected) s = "solved") := by
  have hstate := (run_indep_of_save runCode saveUserCode saveUserCode' s).1
  refine ⟨hstate, ?_, ?_, (run_indep_of_save runCode saveUserCode saveUserCode' s).2, ?_⟩
  · unfold resultsOf; rw [hstate]
  · unfold statusOf; rw [hstate]
  · intro hne hdone hall
    have hfail := run_indep_of_save runCode saveUserCode
      (fun _ _ _ _ _ => SaveOutcome.rejected) s
    have hdone' : completes runCode (fun _ _ _ _ _ => SaveOutcome.rejected) s = true := by
      rw [← hfail.2]; exact hdone
    refine (status_all_passed runCode _ s hne hdone').mpr ?_
    intro r hr
    apply hall
    unfold resultsOf at hr ⊢
    rw [hfail.1]
    exact hr

/-- C9, instance: three passing cases end "solved" although the save fails. -/
theorem save_outcome_does_not_change_results_witness :
    threeCases.testCases ≠ [] ∧
    resultsOf alwaysFive saveOk threeCases = resultsOf alwaysFive saveFails threeCases ∧
    statusOf alwaysFive saveFails threeCases = "solved" :=
  ⟨by decide,
   (save_outcome_does_not_change_results alwaysFive saveOk saveFails threeCases).2.1,
   by decide⟩

/-- C10: on a non-empty list of test cases with no user id, the results and the status are
those of the same run with any user id present, the handler's calls are `runCode` calls
for the test cases in order, all of them when the run completes, and no `saveUserCode`
call is among them. -/
theorem no_save_without_user (runCode : RunCode) (saveUserCode : SaveUserCode) (s : State)
    (hne : s.testCases ≠ []) (hu : s.userId = none) :
    (∀ userId : Option String,
      resultsOf runCode saveUserCode s =
        resultsOf runCode saveUserCode { s with userId := userId } ∧
      statusOf runCode saveUserCode s =
        statusOf runCode saveUserCode { s with userId := userId } ∧
      completes runCode saveUserCode s =
        completes runCode saveUserCode { s with userId := userId }) ∧
    (completes runCode saveUserCode s = true →
      callsOf runCode saveUserCode s =
        s.testCases.map (fun t => Effect.runCode s.language s.code t.input)) ∧
    (∃ n, callsOf runCode saveUserCode s =
      (s.testCases.take n).map (fun t => Effect.runCode s.language s.code t.input)) ∧
    (callsOf runCode saveUserCode s).filter Effect.isSave = [] := by
  have hcalls : completes runCode saveUserCode s = true →
      callsOf runCode saveUserCode s = runCalls s.language s.code s.testCases := by
    intro hdone
    obtain ⟨_, _, _, _, hc⟩ := completed_run runCode saveUserCode s hne hdone
    rw [hc, saveStep_no_user saveUserCode s _ hu, List.append_nil]
  have hprefix : ∃ n, callsOf runCode saveUserCode s =
      runCalls s.language s.code (s.testCases.take n) := by
    cases hdone : completes runCode saveUserCode s with
    | true => exact ⟨s.testCases.length, by rw [List.take_length]; exact hcalls hdone⟩
    | false => exact (state_of_not_completed runCode saveUserCode s hdone).2
  refine ⟨fun userId => run_indep_of_user runCode saveUserCode s userId hne, hcalls,
    hprefix, ?_⟩
  obtain ⟨n, hn⟩ := hprefix
  rw [hn, runCalls_filter_isSave]

/-- C10, instance: three cases run before the user profile has been fetched. -/
theorem no_save_without_user_witness :
    threeCasesNoUser.testCases ≠ [] ∧ threeCasesNoUser.userId = none ∧
    resultsOf timeoutOnSecond saveOk threeCasesNoUser =
      resultsOf timeoutOnSecond saveOk threeCases ∧
    callsOf timeoutOnSecond saveOk threeCasesNoUser =
      [Effect.runCode "cpp" "src" "1", Effect.runCode "cpp" "src" "2",
       Effect.runCode "cpp" "src" "3"] ∧
    (callsOf timeoutOnSecond saveOk threeCasesNoUser).filter Effect.isSave = [] :=
  ⟨by decide, rfl,
   ((no_save_without_user timeoutOnSecond saveOk threeCasesNoUser (by decide) rfl).1
      (some "u1")).1,
   (no_save_without_user timeoutOnSecond saveOk threeCasesNoUser (by decide) rfl).2.1
      (by decide),
   (no_save_without_user timeoutOnSecond saveOk threeCasesNoUser (by decide) rfl).2.2.2⟩

end CodeEditor
